import Mathlib

/-!
Verification of the training/validation orchestration engine of
`train.py` (DnCNN image denoising trainer), shallowly embedded in Lean 4.

Tensors are modelled over the rationals: an image patch is a flattened
list of rationals and a batch is a list of images.  Random draws (the
Gaussian noise tensors, the dataset shuffle, the per-epoch sampler
permutations of the training `DataLoader`) are inputs to the embedded
functions.  The network, the optimizer step and the learning-rate
scheduler are opaque state transformers over an abstract state type,
matching the spec's model-as-opaque-function boundary.
-/

set_option maxHeartbeats 1000000

namespace DnCNN

/-- A flattened image patch tensor (channels x height x width, flattened). -/
abbrev Img := List ℚ

/-- A batch: an ordered list of image patches. -/
abbrev Batch := List Img

/-- A batch paired with its per-example noise draw: `torch.FloatTensor(data.size())`
guarantees the noise tensor has exactly the batch's shape, so we carry
(clean example, noise example) pairs. -/
abbrev PairBatch := List (Img × Img)

/-- Elementwise addition of two images (`data + noise`). -/
def imgAdd (a b : Img) : Img := List.zipWith (· + ·) a b

/-- Elementwise subtraction of two images (`noisy_imgs - preds`). -/
def imgSub (a b : Img) : Img := List.zipWith (· - ·) a b

/-- `torch.clamp(x, 0.0, 1.0)` on one scalar. -/
def clamp01 (q : ℚ) : ℚ := min (max q 0) 1

/-- `torch.clamp(x, 0.0, 1.0)` elementwise on an image. -/
def imgClamp01 (a : Img) : Img := a.map clamp01

/-- Sum of squared differences between two images. -/
def sseImg (p n : Img) : ℚ := (List.zipWith (fun a b => (a - b) ^ 2) p n).sum

/-- `criterion = torch.nn.MSELoss(reduction='sum')` (train.py line 112):
documented torch semantics are the sum of squared elementwise differences
over the whole batch tensor. -/
def criterionSum (P N : Batch) : ℚ := (List.zipWith sseImg P N).sum

/-- Arithmetic mean of a list of rationals (0 for the empty list,
since `[] .sum / 0 = 0` in ℚ). -/
def meanQ (xs : List ℚ) : ℚ := xs.sum / (xs.length : ℚ)

/-- The opaque model/optimizer/scheduler dynamics over an abstract state `σ`
(bundles the network parameters and the optimizer internal state):
`fwd` is the network forward pass on one example, `optStep` is
`loss.backward(); optimizer.step()` for one batch, `sched` is
`ReduceLROnPlateau.step(val_loss)`. -/
structure ModelDyn (σ : Type) where
  fwd : σ → Img → Img
  optStep : σ → PairBatch → σ
  sched : σ → ℚ → σ

/-- The clean images of a batch (`data`, `clean_imgs`). -/
def cleanOf (b : PairBatch) : Batch := b.map Prod.fst

/-- The noise tensor of a batch (`noise`). -/
def noiseOf (b : PairBatch) : Batch := b.map Prod.snd

/-- The corrupted input (`noisy_imgs = data + noise`). -/
def noisyOf (b : PairBatch) : Batch := List.zipWith imgAdd (cleanOf b) (noiseOf b)

/-- The predicted residual (`preds = model(noisy_imgs)`; the convolutional
network acts on each example of the batch independently). -/
def predsOf {σ : Type} (M : ModelDyn σ) (s : σ) (b : PairBatch) : Batch :=
  (noisyOf b).map (M.fwd s)

/-- One batch's loss, train.py lines 151 and 180:
`loss = criterion(preds, noise)/noisy_imgs.size()[0]`. -/
def batchLoss {σ : Type} (M : ModelDyn σ) (s : σ) (b : PairBatch) : ℚ :=
  criterionSum (predsOf M s b) (noiseOf b) / ((noisyOf b).length : ℚ)

/-- The training loop body, train.py lines 135-158: threads the model/optimizer
state, accumulates `epoch_train_loss` and counts `train_steps`. -/
def trainGo {σ : Type} (M : ModelDyn σ) : σ → ℚ → ℕ → List PairBatch → σ × ℚ × ℕ
  | s, tot, k, [] => (s, tot, k)
  | s, tot, k, b :: bs => trainGo M (M.optStep s b) (tot + batchLoss M s b) (k + 1) bs

/-- The train epoch runner, train.py lines 132-158 and 191: runs the loop from
zeroed accumulators, then `epoch_train_loss /= train_steps`.  Returns the
final model/optimizer state and the epoch's mean training loss. -/
def trainEpoch {σ : Type} (M : ModelDyn σ) (s : σ) (bs : List PairBatch) : σ × ℚ :=
  let r := trainGo M s 0 0 bs
  (r.1, r.2.1 / (r.2.2 : ℚ))

/-- Specification-side list of per-batch training losses: the state evolves by
one optimizer step per batch, and each entry is sum((P-N)^2)/B at the state
current for that batch. -/
def trainLossList {σ : Type} (M : ModelDyn σ) : σ → List PairBatch → List ℚ
  | _, [] => []
  | s, b :: bs => batchLoss M s b :: trainLossList M (M.optStep s b) bs

/-- The loop of `psnr_of_batch` (train.py lines 49-51): iterates over the
indices of the clean batch, indexing the denoised batch at the same index;
an index beyond the denoised batch raises `IndexError` in numpy.
`f r c d` stands for `skimage.metrics.peak_signal_noise_ratio(c, d, data_range=r)`,
kept opaque (external library). -/
def psnr_loop (f : ℚ → Img → Img → ℚ) : List Img → List Img → ℚ → Except String ℚ
  | [], _, acc => Except.ok acc
  | _ :: _, [], _ => Except.error "IndexError"
  | c :: cs, d :: ds, acc => psnr_loop f cs ds (acc + f 1 c d)

/-- `psnr_of_batch` (train.py lines 46-52): accumulate per-image PSNR at
data range 1 over the clean batch's indices, then divide by the clean
batch size (`batch_psnr/clean_imgs.shape[0]`; a zero-size clean batch
raises `ZeroDivisionError` in Python). -/
def psnr_of_batch (f : ℚ → Img → Img → ℚ) (clean denoised : Batch) : Except String ℚ :=
  match psnr_loop f clean denoised 0 with
  | Except.error e => Except.error e
  | Except.ok tot =>
      if clean.length = 0 then Except.error "ZeroDivisionError"
      else Except.ok (tot / (clean.length : ℚ))

/-- The reconstructed denoised batch, train.py line 184:
`denoised_imgs = torch.clamp(noisy_imgs - preds, 0.0, 1.0)`. -/
def denoisedOf {σ : Type} (M : ModelDyn σ) (s : σ) (b : PairBatch) : Batch :=
  List.zipWith (fun x p => imgClamp01 (imgSub x p)) (noisyOf b) (predsOf M s b)

/-- Specification-side per-batch PSNR: per-image PSNR at data range 1 of
(clean image, denoised image), averaged arithmetically over the batch. -/
def batchPsnrSpec {σ : Type} (f : ℚ → Img → Img → ℚ) (M : ModelDyn σ) (s : σ)
    (b : PairBatch) : ℚ :=
  meanQ (List.zipWith (fun c d => f 1 c d) (cleanOf b) (denoisedOf M s b))

/-- Defaulted value of `psnr_of_batch` (0 on error); on every batch actually
produced by the validation loop it agrees with `psnr_of_batch`
(lemma `batchPsnrD_eq_spec`). -/
def batchPsnrD {σ : Type} (f : ℚ → Img → Img → ℚ) (M : ModelDyn σ) (s : σ)
    (b : PairBatch) : ℚ :=
  ((psnr_of_batch f (cleanOf b) (denoisedOf M s b)).toOption).getD 0

/-- The validation loop body, train.py lines 166-188: threads the (unmodified)
state, accumulates `epoch_val_loss`, `epoch_val_psnr` and `val_steps`;
a failure of `psnr_of_batch` propagates as an exception. -/
def evalGo {σ : Type} (M : ModelDyn σ) (f : ℚ → Img → Img → ℚ) :
    σ → ℚ → ℚ → ℕ → List PairBatch → Except String (σ × ℚ × ℚ × ℕ)
  | s, tl, tp, k, [] => Except.ok (s, tl, tp, k)
  | s, tl, tp, k, b :: bs =>
      match psnr_of_batch f (cleanOf b) (denoisedOf M s b) with
      | Except.error e => Except.error e
      | Except.ok p => evalGo M f s (tl + batchLoss M s b) (tp + p) (k + 1) bs

/-- The eval epoch runner, train.py lines 161-193: runs the validation loop
from zeroed accumulators, then divides the loss and PSNR accumulators by
`val_steps`.  Returns (state, mean loss, mean PSNR). -/
def evalEpoch {σ : Type} (M : ModelDyn σ) (f : ℚ → Img → Img → ℚ) (s : σ)
    (bs : List PairBatch) : Except String (σ × ℚ × ℚ) :=
  (evalGo M f s 0 0 0 bs).map
    (fun r => (r.1, r.2.1 / (r.2.2.2 : ℚ), r.2.2.1 / (r.2.2.2 : ℚ)))

/-- Total version of the validation loop body, used by the orchestrator model;
`evalEpoch_eq_total` shows it coincides with `evalGo` on the nonempty
batches the loaders actually deliver. -/
def evalGoT {σ : Type} (M : ModelDyn σ) (f : ℚ → Img → Img → ℚ) :
    σ → ℚ → ℚ → ℕ → List PairBatch → σ × ℚ × ℚ × ℕ
  | s, tl, tp, k, [] => (s, tl, tp, k)
  | s, tl, tp, k, b :: bs =>
      evalGoT M f s (tl + batchLoss M s b) (tp + batchPsnrD f M s b) (k + 1) bs

/-- Total version of the eval epoch runner. -/
def evalEpochTotal {σ : Type} (M : ModelDyn σ) (f : ℚ → Img → Img → ℚ) (s : σ)
    (bs : List PairBatch) : σ × ℚ × ℚ :=
  let r := evalGoT M f s 0 0 0 bs
  (r.1, r.2.1 / (r.2.2.2 : ℚ), r.2.2.1 / (r.2.2.2 : ℚ))

/-- The Run History record (train.py line 119):
`history = {'model': model_params, 'train':[], 'val':[], 'psnr':[]}`;
the hyperparameter dictionary is opaque (type parameter `H`). -/
structure History (H : Type) where
  model : H
  train : List ℚ
  val : List ℚ
  psnr : List ℚ
  deriving DecidableEq

/-- Durable-storage write events of the main loop: the initial history dump
(line 120), `best_model.pt` / `best_model.npy` (lines 199-200) tagged with
the 0-based epoch index, and `final_model.pt` / `final_model.npy`
(lines 228-229).  TensorBoard scalar/image events go to the external
metrics sink and are out of scope. -/
inductive Sink (H : Type) where
  | initHistory : History H → Sink H
  | bestModel : ℕ → Sink H
  | bestHistory : ℕ → History H → Sink H
  | finalModel : Sink H
  | finalHistory : History H → Sink H
  deriving DecidableEq

/-- The orchestrator's mutable state: model/optimizer state, the
Best-Model Marker `best_val_loss`, and the in-memory Run History. -/
structure OrchState (σ H : Type) where
  s : σ
  best : ℚ
  hist : History H

/-- One epoch's data: the training batches and the validation batches, each
paired with that epoch's fresh noise draws. -/
abbrev EpochData := List PairBatch × List PairBatch

/-- The validation loss an epoch computes from a starting state: train first
(lines 135-158), then evaluate with the post-training state (lines 161-193). -/
def valLossOf {σ : Type} (M : ModelDyn σ) (f : ℚ → Img → Img → ℚ) (s : σ)
    (ed : EpochData) : ℚ :=
  (evalEpochTotal M f (trainEpoch M s ed.1).1 ed.2).2.1

/-- One iteration of the main training loop (train.py lines 128-224):
train epoch, eval epoch, best-model check with strict `<` against
`best_val_loss` (saving `best_model.pt` then the pre-append history
snapshot `best_model.npy`, lines 196-200), `scheduler.step(epoch_val_loss)`
(line 203), then append the epoch's stats to the history (lines 206-208).
Returns the new state and the epoch's durable writes in order. -/
def epochStep {σ H : Type} (M : ModelDyn σ) (f : ℚ → Img → Img → ℚ)
    (st : OrchState σ H) (ed : EpochData) (e : ℕ) :
    OrchState σ H × List (Sink H) :=
  let tr := trainEpoch M st.s ed.1
  let ev := evalEpochTotal M f tr.1 ed.2
  let vl := ev.2.1
  let vp := ev.2.2
  let bw : ℚ × List (Sink H) :=
    if vl < st.best then (vl, [Sink.bestModel e, Sink.bestHistory e st.hist])
    else (st.best, [])
  (⟨M.sched ev.1 vl, bw.1,
    ⟨st.hist.model, st.hist.train ++ [tr.2], st.hist.val ++ [vl], st.hist.psnr ++ [vp]⟩⟩,
   bw.2)

/-- The epoch loop `for epoch in range(args.epochs)` (line 128), carried out
from a 0-based epoch counter, collecting the durable writes in order. -/
def runEpochs {σ H : Type} (M : ModelDyn σ) (f : ℚ → Img → Img → ℚ) :
    OrchState σ H → ℕ → List EpochData → OrchState σ H × List (Sink H)
  | st, _, [] => (st, [])
  | st, e, ed :: eds =>
      let r := epochStep M f st ed e
      let rest := runEpochs M f r.1 (e + 1) eds
      (rest.1, r.2 ++ rest.2)

/-- `best_val_loss = 999` (train.py line 127). -/
def best_val_loss_init : ℚ := 999

/-- The orchestrator `main` after setup (train.py lines 119-229): dump the
fresh history (`model.npy`, line 120), initialize `best_val_loss = 999`
(line 127), run all epochs, then unconditionally save `final_model.pt`
and `final_model.npy` (lines 228-229). -/
def mainRun {σ H : Type} (M : ModelDyn σ) (f : ℚ → Img → Img → ℚ) (hp : H)
    (s0 : σ) (eds : List EpochData) : OrchState σ H × List (Sink H) :=
  let h0 : History H := ⟨hp, [], [], []⟩
  let r := runEpochs M f ⟨s0, best_val_loss_init, h0⟩ 0 eds
  (r.1, Sink.initHistory h0 :: (r.2 ++ [Sink.finalModel, Sink.finalHistory r.1.hist]))

/-- Apply an index permutation to a list (the outcome of `np.random.shuffle`,
the chosen permutation being an input). -/
def applyPerm {α : Type} (perm : List ℕ) (xs : List α) : List α :=
  perm.filterMap xs.get?

/-- The `Dataset` object after construction: just its shuffled key list. -/
structure DatasetM (K : Type) where
  keys : List K

/-- `Dataset.__init__` (train.py lines 20-25): list the store's keys, then
shuffle them once with `np.random.shuffle`; the permutation the RNG picks
is an input. -/
def datasetInit {K : Type} (file_keys : List K) (perm : List ℕ) : DatasetM K :=
  ⟨applyPerm perm file_keys⟩

/-- `Dataset.__getitem__` (lines 30-33): read the patch stored under the
index-th shuffled key, fresh from the backing store. -/
def DatasetM.getItem {K : Type} (d : DatasetM K) (store : K → Img) (i : ℕ) :
    Option Img :=
  (d.keys.get? i).map store

/-- Modelled from the documented semantics of `torch.utils.data.DataLoader`:
with `shuffle=True` a fresh random permutation of the dataset indices is
drawn for each epoch's iteration (RandomSampler); with `shuffle=False`
the indices are sequential every epoch.  The per-epoch permutations the
RNG picks are an input. -/
def loaderEpochIndices (shuffle : Bool) (epochPerms : ℕ → List ℕ) (n e : ℕ) :
    List ℕ :=
  if shuffle then epochPerms e else List.range n

/-- The sequence of patches a loader delivers to the epoch runner in epoch
`e`, in order. -/
def epochDelivery {K : Type} (d : DatasetM K) (store : K → Img) (shuffle : Bool)
    (epochPerms : ℕ → List ℕ) (e : ℕ) : List (Option Img) :=
  (loaderEpochIndices shuffle epochPerms d.keys.length e).map (d.getItem store)

/-- `shuffle=True` of `train_loader` (train.py line 92). -/
def train_loader_shuffle : Bool := true

/-- `shuffle=False` of `val_loader` (train.py line 93). -/
def val_loader_shuffle : Bool := false

/-- The data-file existence asserts (train.py lines 75-76), including the
f-string of line 76 which interpolates `args.train_set`:
`assert os.path.exists(args.val_set), f'Cannot find validation vectors file {args.train_set}'`.
They run before any dataset or model construction. -/
def checkDataFiles (pathExists : String → Bool) (train_set val_set : String) :
    Except String Unit :=
  if pathExists train_set then
    if pathExists val_set then Except.ok ()
    else Except.error ("Cannot find validation vectors file " ++ train_set)
  else Except.error ("Cannot find training vectors file " ++ train_set)

theorem cleanOf_length (b : PairBatch) : (cleanOf b).length = b.length := by
  simp [cleanOf]

theorem noiseOf_length (b : PairBatch) : (noiseOf b).length = b.length := by
  simp [noiseOf]

theorem noisyOf_length (b : PairBatch) : (noisyOf b).length = b.length := by
  simp [noisyOf, cleanOf, noiseOf]

theorem predsOf_length {σ : Type} (M : ModelDyn σ) (s : σ) (b : PairBatch) :
    (predsOf M s b).length = b.length := by
  simp [predsOf, noisyOf_length]

theorem denoisedOf_length {σ : Type} (M : ModelDyn σ) (s : σ) (b : PairBatch) :
    (denoisedOf M s b).length = b.length := by
  simp [denoisedOf, noisyOf_length, predsOf_length]

theorem trainLossList_length {σ : Type} (M : ModelDyn σ) :
    ∀ (bs : List PairBatch) (s : σ), (trainLossList M s bs).length = bs.length
  | [], _ => rfl
  | _ :: bs, s => by
      simp [trainLossList, trainLossList_length M bs]

theorem trainGo_eq {σ : Type} (M : ModelDyn σ) :
    ∀ (bs : List PairBatch) (s : σ) (tot : ℚ) (k : ℕ),
      trainGo M s tot k bs
        = (bs.foldl M.optStep s, tot + (trainLossList M s bs).sum, k + bs.length)
  | [], s, tot, k => by simp [trainGo, trainLossList]
  | b :: bs, s, tot, k => by
      rw [trainGo, trainGo_eq M bs]
      simp [trainLossList]
      constructor
      · ring
      · omega

theorem trainEpoch_eq_mean {σ : Type} (M : ModelDyn σ) (s : σ) (bs : List PairBatch) :
    (trainEpoch M s bs).2 = meanQ (trainLossList M s bs) := by
  simp [trainEpoch, trainGo_eq, meanQ, trainLossList_length]

theorem psnr_loop_ok (f : ℚ → Img → Img → ℚ) :
    ∀ (clean denoised : List Img), clean.length ≤ denoised.length →
      ∀ acc : ℚ, psnr_loop f clean denoised acc
        = Except.ok (acc + (List.zipWith (fun c d => f 1 c d) clean denoised).sum)
  | [], _, _, acc => by simp [psnr_loop]
  | c :: cs, [], h, acc => by simp at h
  | c :: cs, d :: ds, h, acc => by
      rw [psnr_loop, psnr_loop_ok f cs ds (by simpa using h) (acc + f 1 c d)]
      simp [add_assoc]

theorem psnr_loop_err (f : ℚ → Img → Img → ℚ) :
    ∀ (clean denoised : List Img), denoised.length < clean.length →
      ∀ acc : ℚ, psnr_loop f clean denoised acc = Except.error "IndexError"
  | [], _, h, _ => by simp at h
  | _ :: _, [], _, _ => rfl
  | _ :: cs, _ :: ds, h, acc => psnr_loop_err f cs ds (by simpa using h) _

theorem psnr_of_batch_ok (f : ℚ → Img → Img → ℚ) (clean denoised : Batch)
    (h0 : clean ≠ []) (h : clean.length ≤ denoised.length) :
    psnr_of_batch f clean denoised
      = Except.ok
          ((List.zipWith (fun c d => f 1 c d) clean denoised).sum / (clean.length : ℚ)) := by
  have hlen : clean.length ≠ 0 := by simpa using h0
  rw [psnr_of_batch, psnr_loop_ok f clean denoised h 0]
  simp [hlen]

theorem psnr_of_batch_spec {σ : Type} (f : ℚ → Img → Img → ℚ) (M : ModelDyn σ)
    (s : σ) (b : PairBatch) (hb : b ≠ []) :
    psnr_of_batch f (cleanOf b) (denoisedOf M s b)
      = Except.ok (batchPsnrSpec f M s b) := by
  have hc : (cleanOf b).length = b.length := cleanOf_length b
  have hd : (denoisedOf M s b).length = b.length := denoisedOf_length M s b
  have hcne : cleanOf b ≠ [] := by
    intro hnil
    apply hb
    have := cleanOf_length b
    rw [hnil] at this
    exact List.length_eq_zero.mp this.symm
  rw [psnr_of_batch_ok f _ _ hcne (by rw [hc, hd])]
  simp [batchPsnrSpec, meanQ, hc, hd]

theorem batchPsnrD_eq_spec {σ : Type} (f : ℚ → Img → Img → ℚ) (M : ModelDyn σ)
    (s : σ) (b : PairBatch) :
    batchPsnrD f M s b = batchPsnrSpec f M s b := by
  by_cases hb : b = []
  · subst hb
    simp [batchPsnrD, batchPsnrSpec, psnr_of_batch, psnr_loop, cleanOf, denoisedOf,
      noisyOf, noiseOf, predsOf, meanQ, Except.toOption]
  · rw [batchPsnrD, psnr_of_batch_spec f M s b hb]
    rfl

theorem evalGoT_eq {σ : Type} (M : ModelDyn σ) (f : ℚ → Img → Img → ℚ) :
    ∀ (bs : List PairBatch) (s : σ) (tl tp : ℚ) (k : ℕ),
      evalGoT M f s tl tp k bs
        = (s, tl + (bs.map (batchLoss M s)).sum,
            tp + (bs.map (batchPsnrD f M s)).sum, k + bs.length)
  | [], s, tl, tp, k => by simp [evalGoT]
  | b :: bs, s, tl, tp, k => by
      rw [evalGoT, evalGoT_eq M f bs]
      simp only [List.map_cons, List.sum_cons, List.length_cons, Prod.mk.injEq,
        true_and]
      refine ⟨by ring, by ring, by omega⟩

theorem evalGo_ok {σ : Type} (M : ModelDyn σ) (f : ℚ → Img → Img → ℚ) :
    ∀ (bs : List PairBatch), (∀ b ∈ bs, b ≠ ([] : PairBatch)) →
      ∀ (s : σ) (tl tp : ℚ) (k : ℕ),
        evalGo M f s tl tp k bs
          = Except.ok (s, tl + (bs.map (batchLoss M s)).sum,
              tp + (bs.map (batchPsnrSpec f M s)).sum, k + bs.length)
  | [], _, s, tl, tp, k => by simp [evalGo]
  | b :: bs, hne, s, tl, tp, k => by
      have hb : b ≠ [] := hne b (List.mem_cons_self b bs)
      rw [evalGo, psnr_of_batch_spec f M s b hb]
      show evalGo M f s (tl + batchLoss M s b) (tp + batchPsnrSpec f M s b) (k + 1) bs = _
      rw [evalGo_ok M f bs (fun x hx => hne x (List.mem_cons_of_mem b hx))]
      simp only [List.map_cons, List.sum_cons, List.length_cons, Except.ok.injEq,
        Prod.mk.injEq, true_and]
      refine ⟨by ring, by ring, by omega⟩

theorem evalGo_fst {σ : Type} (M : ModelDyn σ) (f : ℚ → Img → Img → ℚ) :
    ∀ (bs : List PairBatch) (s : σ) (tl tp : ℚ) (k : ℕ) (r : σ × ℚ × ℚ × ℕ),
      evalGo M f s tl tp k bs = Except.ok r → r.1 = s
  | [], s, tl, tp, k, r => by
      intro h
      rw [evalGo] at h
      injection h with h2
      rw [← h2]
  | b :: bs, s, tl, tp, k, r => by
      intro h
      rw [evalGo] at h
      rcases hp : psnr_of_batch f (cleanOf b) (denoisedOf M s b) with e | p
      · rw [hp] at h
        cases h
      · rw [hp] at h
        exact evalGo_fst M f bs s _ _ _ r h

theorem evalEpochTotal_eq {σ : Type} (M : ModelDyn σ) (f : ℚ → Img → Img → ℚ)
    (s : σ) (bs : List PairBatch) :
    evalEpochTotal M f s bs
      = (s, meanQ (bs.map (batchLoss M s)), meanQ (bs.map (batchPsnrD f M s))) := by
  simp [evalEpochTotal, evalGoT_eq, meanQ]

theorem evalEpoch_eq_total {σ : Type} (M : ModelDyn σ) (f : ℚ → Img → Img → ℚ)
    (s : σ) (bs : List PairBatch) (hne : ∀ b ∈ bs, b ≠ ([] : PairBatch)) :
    evalEpoch M f s bs = Except.ok (evalEpochTotal M f s bs) := by
  have hmap : bs.map (batchPsnrD f M s) = bs.map (batchPsnrSpec f M s) :=
    List.map_congr_left (fun b _ => batchPsnrD_eq_spec f M s b)
  rw [evalEpoch, evalGo_ok M f bs hne, evalEpochTotal_eq, hmap]
  simp [meanQ, Except.map]

theorem epochStep_best_min {σ H : Type} (M : ModelDyn σ) (f : ℚ → Img → Img → ℚ)
    (st : OrchState σ H) (ed : EpochData) (e : ℕ) :
    (epochStep M f st ed e).1.best = min (valLossOf M f st.s ed) st.best := by
  rw [epochStep, valLossOf]
  by_cases h : (evalEpochTotal M f (trainEpoch M st.s ed.1).1 ed.2).2.1 < st.best
  · simp [h, min_eq_left (le_of_lt h)]
  · simp [h, min_eq_right (le_of_not_lt h)]

theorem epochStep_writes {σ H : Type} (M : ModelDyn σ) (f : ℚ → Img → Img → ℚ)
    (st : OrchState σ H) (ed : EpochData) (e : ℕ) :
    (epochStep M f st ed e).2
      = if valLossOf M f st.s ed < st.best
          then [Sink.bestModel e, Sink.bestHistory e st.hist] else [] := by
  rw [epochStep, valLossOf]
  by_cases h : (evalEpochTotal M f (trainEpoch M st.s ed.1).1 ed.2).2.1 < st.best
  · simp [h]
  · simp [h]

theorem epochStep_hist {σ H : Type} (M : ModelDyn σ) (f : ℚ → Img → Img → ℚ)
    (st : OrchState σ H) (ed : EpochData) (e : ℕ) :
    (epochStep M f st ed e).1.hist.model = st.hist.model ∧
    (epochStep M f st ed e).1.hist.train
      = st.hist.train ++ [(trainEpoch M st.s ed.1).2] ∧
    (epochStep M f st ed e).1.hist.val = st.hist.val ++ [valLossOf M f st.s ed] ∧
    (epochStep M f st ed e).1.hist.psnr
      = st.hist.psnr ++ [(evalEpochTotal M f (trainEpoch M st.s ed.1).1 ed.2).2.2] := by
  rw [epochStep, valLossOf]
  exact ⟨rfl, rfl, rfl, rfl⟩

theorem runEpochs_best_le {σ H : Type} (M : ModelDyn σ) (f : ℚ → Img → Img → ℚ) :
    ∀ (eds : List EpochData) (st : OrchState σ H) (e : ℕ),
      (runEpochs M f st e eds).1.best ≤ st.best
  | [], _, _ => le_refl _
  | ed :: eds, st, e => by
      rw [runEpochs]
      refine le_trans (runEpochs_best_le M f eds _ (e + 1)) ?_
      rw [epochStep_best_min]
      exact min_le_right _ _

theorem runEpochs_hist_len {σ H : Type} (M : ModelDyn σ) (f : ℚ → Img → Img → ℚ) :
    ∀ (eds : List EpochData) (st : OrchState σ H) (e : ℕ),
      (runEpochs M f st e eds).1.hist.train.length
          = st.hist.train.length + eds.length ∧
      (runEpochs M f st e eds).1.hist.val.length
          = st.hist.val.length + eds.length ∧
      (runEpochs M f st e eds).1.hist.psnr.length
          = st.hist.psnr.length + eds.length
  | [], _, _ => by simp [runEpochs]
  | ed :: eds, st, e => by
      rw [runEpochs]
      have ih := runEpochs_hist_len M f eds (epochStep M f st ed e).1 (e + 1)
      have hh := epochStep_hist M f st ed e
      refine ⟨?_, ?_, ?_⟩
      · rw [ih.1, hh.2.1]; simp; omega
      · rw [ih.2.1, hh.2.2.1]; simp; omega
      · rw [ih.2.2, hh.2.2.2]; simp; omega

theorem runEpochs_bestModel_ge {σ H : Type} (M : ModelDyn σ) (f : ℚ → Img → Img → ℚ) :
    ∀ (eds : List EpochData) (st : OrchState σ H) (e0 e : ℕ),
      Sink.bestModel e ∈ (runEpochs M f st e0 eds).2 → e0 ≤ e
  | [], _, _, _ => by simp [runEpochs]
  | ed :: eds, st, e0, e => by
      rw [runEpochs]
      intro hmem
      simp only [List.mem_append] at hmem
      rcases hmem with hmem | hmem
      · rw [epochStep_writes] at hmem
        by_cases h : valLossOf M f st.s ed < st.best
        · rw [if_pos h] at hmem
          simp at hmem
          omega
        · rw [if_neg h] at hmem
          simp at hmem
      · have := runEpochs_bestModel_ge M f eds _ (e0 + 1) e hmem
        omega

theorem runEpochs_bestHistory_len {σ H : Type} (M : ModelDyn σ)
    (f : ℚ → Img → Img → ℚ) :
    ∀ (eds : List EpochData) (st : OrchState σ H) (e0 : ℕ),
      st.hist.train.length = e0 → st.hist.val.length = e0 →
      st.hist.psnr.length = e0 →
      ∀ (e : ℕ) (h : History H),
        Sink.bestHistory e h ∈ (runEpochs M f st e0 eds).2 →
        h.train.length = e ∧ h.val.length = e ∧ h.psnr.length = e
  | [], _, _, _, _, _, _, _ => by simp [runEpochs]
  | ed :: eds, st, e0, ht, hv, hp, e, h => by
      rw [runEpochs]
      intro hmem
      simp only [List.mem_append] at hmem
      rcases hmem with hmem | hmem
      · rw [epochStep_writes] at hmem
        by_cases hlt : valLossOf M f st.s ed < st.best
        · rw [if_pos hlt] at hmem
          simp at hmem
          rcases hmem with ⟨he, hh⟩
          subst he
          subst hh
          exact ⟨ht, hv, hp⟩
        · rw [if_neg hlt] at hmem
          simp at hmem
      · have hh := epochStep_hist M f st ed e0
        refine runEpochs_bestHistory_len M f eds (epochStep M f st ed e0).1 (e0 + 1)
          ?_ ?_ ?_ e h hmem
        · rw [hh.2.1]; simp [ht]
        · rw [hh.2.2.1]; simp [hv]
        · rw [hh.2.2.2]; simp [hp]

/-- Concrete opaque dynamics for closed instances: the network returns the
zero patch, optimizer and scheduler steps leave the (trivial) state alone. -/
def M0 : ModelDyn Unit :=
  ⟨fun _ _ => [0], fun s _ => s, fun s _ => s⟩

/-- Concrete opaque per-image PSNR for closed instances: constantly 0. -/
def f0 : ℚ → Img → Img → ℚ := fun _ _ _ => 0

/-- A concrete epoch: one training batch and one validation batch, each a
single example with clean patch [0] and noise draw [0]. -/
def ed0 : EpochData := ([[([0], [0])]], [[([0], [0])]])

/-- Concrete dynamics whose network outputs the constant patch [2000]. -/
def M1 : ModelDyn Unit :=
  ⟨fun _ _ => [2000], fun s _ => s, fun s _ => s⟩

/-- A concrete epoch with one single-example training batch and one
single-example validation batch, each with clean patch [0] and noise draw
[0] (a one-patch store with noise level 0). -/
def ed1 : EpochData := ([[([0], [0])]], [[([0], [0])]])

theorem valLossOf_M1_eval : valLossOf M1 f0 () ed1 = 4000000 := by
  simp [valLossOf, ed1, trainEpoch, trainGo, evalEpochTotal, evalGoT, batchLoss,
    criterionSum, sseImg, predsOf, noisyOf, cleanOf, noiseOf, imgAdd, M1,
    batchPsnrD, psnr_of_batch, psnr_loop, denoisedOf, imgClamp01, imgSub, clamp01, f0]
  norm_num

theorem mainRun_M0_writes :
    (mainRun M0 f0 (0 : ℕ) () [ed0, ed0]).2
      = [Sink.initHistory ⟨0, [], [], []⟩,
         Sink.bestModel 0, Sink.bestHistory 0 ⟨0, [], [], []⟩,
         Sink.finalModel, Sink.finalHistory ⟨0, [0, 0], [0, 0], [0, 0]⟩] := by
  simp [mainRun, runEpochs, epochStep, ed0, trainEpoch, trainGo, evalEpochTotal,
    evalGoT, batchLoss, criterionSum, sseImg, predsOf, noisyOf, cleanOf, noiseOf,
    imgAdd, M0, batchPsnrD, psnr_of_batch, psnr_loop, denoisedOf, imgClamp01,
    imgSub, clamp01, f0, best_val_loss_init, Except.toOption]

theorem mainRun_M0_single_writes :
    (mainRun M0 f0 (0 : ℕ) () [ed0]).2
      = [Sink.initHistory ⟨0, [], [], []⟩,
         Sink.bestModel 0, Sink.bestHistory 0 ⟨0, [], [], []⟩,
         Sink.finalModel, Sink.finalHistory ⟨0, [0], [0], [0]⟩] := by
  simp [mainRun, runEpochs, epochStep, ed0, trainEpoch, trainGo, evalEpochTotal,
    evalGoT, batchLoss, criterionSum, sseImg, predsOf, noisyOf, cleanOf, noiseOf,
    imgAdd, M0, batchPsnrD, psnr_of_batch, psnr_loop, denoisedOf, imgClamp01,
    imgSub, clamp01, f0, best_val_loss_init, Except.toOption]

theorem mainRun_M1_writes :
    (mainRun M1 f0 (0 : ℕ) () [ed1]).2
      = [Sink.initHistory ⟨0, [], [], []⟩,
         Sink.finalModel, Sink.finalHistory ⟨0, [4000000], [4000000], [0]⟩] := by
  simp [mainRun, runEpochs, epochStep, ed1, trainEpoch, trainGo, evalEpochTotal,
    evalGoT, batchLoss, criterionSum, sseImg, predsOf, noisyOf, cleanOf, noiseOf,
    imgAdd, M1, batchPsnrD, psnr_of_batch, psnr_loop, denoisedOf, imgClamp01,
    imgSub, clamp01, f0, best_val_loss_init, Except.toOption]
  norm_num

theorem evalEpoch_M0_eval : evalEpoch M0 f0 () [[([0], [0])]] = Except.ok ((), 0, 0) := by
  simp [evalEpoch, evalGo, batchLoss, criterionSum, sseImg, predsOf, noisyOf,
    cleanOf, noiseOf, imgAdd, M0, psnr_of_batch, psnr_loop, denoisedOf,
    imgClamp01, imgSub, clamp01, f0, Except.map]

/-- C1: for every training or validation batch, the per-batch loss the runner
computes is `criterion(preds, noise)/B` with `criterion` the sum of squared
differences and `B` the number of examples in the batch, and the epoch loss
returned is the arithmetic mean of these per-batch losses over the epoch's
batches; on the spec's example (B=2, P=[1,3], N=[0,1]) the loss is 5/2. -/
theorem claim_C1 (σ : Type) (M : ModelDyn σ) (f : ℚ → Img → Img → ℚ) (s : σ)
    (tbs vbs : List PairBatch) :
    (trainEpoch M s tbs).2 = meanQ (trainLossList M s tbs) ∧
    (evalEpochTotal M f s vbs).2.1 = meanQ (vbs.map (batchLoss M s)) ∧
    (∀ b : PairBatch,
        batchLoss M s b
          = criterionSum (predsOf M s b) (noiseOf b) / (b.length : ℚ)) ∧
    criterionSum [[1], [3]] [[0], [1]] / (2 : ℚ) = 5 / 2 := by
  refine ⟨trainEpoch_eq_mean M s tbs, ?_, ?_, ?_⟩
  · rw [evalEpochTotal_eq]
  · intro b
    rw [batchLoss, noisyOf_length]
  · simp [criterionSum, sseImg]
    norm_num

/-- C2: across a run the Best-Model Marker is non-increasing; within every
epoch the updated marker is `min(val loss, prior marker)`, and the best
checkpoint and the best-history snapshot are written if and only if the
epoch's validation loss is strictly below the marker's prior value, so a
validation loss equal to the marker writes nothing and leaves the marker
unchanged. -/
theorem claim_C2 (σ H : Type) (M : ModelDyn σ) (f : ℚ → Img → Img → ℚ) :
    (∀ (st : OrchState σ H) (e : ℕ) (eds : List EpochData),
        (runEpochs M f st e eds).1.best ≤ st.best) ∧
    (∀ (st : OrchState σ H) (ed : EpochData) (e : ℕ),
        (epochStep M f st ed e).1.best = min (valLossOf M f st.s ed) st.best ∧
        (Sink.bestModel e ∈ (epochStep M f st ed e).2
            ↔ valLossOf M f st.s ed < st.best) ∧
        (Sink.bestHistory e st.hist ∈ (epochStep M f st ed e).2
            ↔ valLossOf M f st.s ed < st.best) ∧
        ((epochStep M f st ed e).2 = [] ↔ ¬ valLossOf M f st.s ed < st.best)) := by
  constructor
  · intro st e eds
    exact runEpochs_best_le M f eds st e
  · intro st ed e
    rw [epochStep_best_min, epochStep_writes]
    by_cases h : valLossOf M f st.s ed < st.best
    · simp [h]
    · simp [h]

/-- C3 counterexample: a concrete two-epoch run in which the only durable
writes before the second epoch begins are the initial dump of the empty
history and the first epoch's best-model pair whose snapshot still has
empty loss sequences — no write containing the first epoch's history
entries happens before the second epoch. -/
theorem claim_C3_cex :
    (mainRun M0 f0 (0 : ℕ) () [ed0, ed0]).2
      = [Sink.initHistory ⟨0, [], [], []⟩,
         Sink.bestModel 0, Sink.bestHistory 0 ⟨0, [], [], []⟩,
         Sink.finalModel, Sink.finalHistory ⟨0, [0, 0], [0, 0], [0, 0]⟩] ∧
    (⟨0, [], [], []⟩ : History ℕ).train.length = 0 := by
  exact ⟨mainRun_M0_writes, rfl⟩

/-- C3 amended: the in-memory Run History gains exactly one entry per
sequence per completed epoch (hyperparameters untouched), but history is
written to durable storage only at run start (the empty record), on best
epochs (the pre-append snapshot, so without the triggering epoch's entries)
and once after the last epoch (the complete record); an epoch that is not a
new best writes nothing durable. -/
theorem claim_C3_amended (σ H : Type) (M : ModelDyn σ) (f : ℚ → Img → Img → ℚ) :
    (∀ (st : OrchState σ H) (ed : EpochData) (e : ℕ),
        (epochStep M f st ed e).1.hist.model = st.hist.model ∧
        (epochStep M f st ed e).1.hist.train.length = st.hist.train.length + 1 ∧
        (epochStep M f st ed e).1.hist.val.length = st.hist.val.length + 1 ∧
        (epochStep M f st ed e).1.hist.psnr.length = st.hist.psnr.length + 1 ∧
        ((epochStep M f st ed e).2 = []
          ∨ (epochStep M f st ed e).2
              = [Sink.bestModel e, Sink.bestHistory e st.hist])) ∧
    (∀ (hp : H) (s0 : σ) (eds : List EpochData),
        (mainRun M f hp s0 eds).2.head?
            = some (Sink.initHistory ⟨hp, [], [], []⟩) ∧
        Sink.finalHistory (mainRun M f hp s0 eds).1.hist
            ∈ (mainRun M f hp s0 eds).2 ∧
        (mainRun M f hp s0 eds).1.hist.train.length = eds.length ∧
        (mainRun M f hp s0 eds).1.hist.val.length = eds.length ∧
        (mainRun M f hp s0 eds).1.hist.psnr.length = eds.length) := by
  constructor
  · intro st ed e
    have hh := epochStep_hist M f st ed e
    refine ⟨hh.1, ?_, ?_, ?_, ?_⟩
    · rw [hh.2.1]; simp
    · rw [hh.2.2.1]; simp
    · rw [hh.2.2.2]; simp
    · rw [epochStep_writes]
      by_cases h : valLossOf M f st.s ed < st.best
      · right; rw [if_pos h]
      · left; rw [if_neg h]
  · intro hp s0 eds
    have hl := runEpochs_hist_len M f eds
      ⟨s0, best_val_loss_init, ⟨hp, [], [], []⟩⟩ 0
    refine ⟨?_, ?_, ?_, ?_, ?_⟩
    · simp [mainRun]
    · simp [mainRun]
    · simpa [mainRun] using hl.1
    · simpa [mainRun] using hl.2.1
    · simpa [mainRun] using hl.2.2

/-- C4 counterexample: the training pipeline re-shuffles between epochs.
With a concrete two-patch dataset (whose construction-time shuffle is the
identity) and per-epoch sampler permutations that differ between epoch 0 and
epoch 1, the training loader (`shuffle=True`) delivers the patches in
different orders in the two epochs. -/
theorem claim_C4_cex :
    epochDelivery (datasetInit [10, 20] [0, 1]) (fun k => [(k : ℚ)])
        train_loader_shuffle (fun e => if e = 0 then [0, 1] else [1, 0]) 0
      ≠ epochDelivery (datasetInit [10, 20] [0, 1]) (fun k => [(k : ℚ)])
          train_loader_shuffle (fun e => if e = 0 then [0, 1] else [1, 0]) 1 := by
  decide

/-- C4 amended: the Dataset's shuffled key ordering is established once at
construction and never changes, and the validation loader (`shuffle=False`)
delivers the patches in the same (sequential) order in every epoch; but the
training loader is constructed with `shuffle=True`, so in epoch `e` it
delivers the patches in the order of that epoch's fresh sampler permutation,
which may differ between epochs. -/
theorem claim_C4_amended (K : Type) (d : DatasetM K) (store : K → Img)
    (perms : ℕ → List ℕ) (e e1 e2 : ℕ) (fks : List K) (p0 : List ℕ) :
    epochDelivery d store val_loader_shuffle perms e1
      = epochDelivery d store val_loader_shuffle perms e2 ∧
    epochDelivery d store train_loader_shuffle perms e
      = (perms e).map (d.getItem store) ∧
    (datasetInit fks p0).keys = applyPerm p0 fks := by
  refine ⟨rfl, ?_, rfl⟩
  simp [epochDelivery, loaderEpochIndices, train_loader_shuffle]

/-- C5 counterexample: the sentinel 999 is not strictly greater than every
attainable validation loss.  With a network that outputs the constant patch
[2000], a one-example training batch and a one-example validation batch
(one-pixel patches, zero noise), the first completed epoch's validation
loss is 4000000 ≥ 999, and the run's durable writes contain no best-model
save for epoch 0. -/
theorem claim_C5_cex :
    valLossOf M1 f0 () ed1 = 4000000 ∧
    ¬ valLossOf M1 f0 () ed1 < best_val_loss_init ∧
    Sink.bestModel 0 ∉ (mainRun M1 f0 (0 : ℕ) () [ed1]).2 := by
  refine ⟨valLossOf_M1_eval, ?_, ?_⟩
  · rw [valLossOf_M1_eval, best_val_loss_init]
    norm_num
  · rw [mainRun_M1_writes]
    simp

/-- C5 amended: the Best-Model Marker is initialized to the fixed constant
999, which is not an upper bound on attainable validation losses; the first
completed epoch triggers a best-model save exactly when its validation loss
is strictly below 999. -/
theorem claim_C5_amended (σ H : Type) (M : ModelDyn σ) (f : ℚ → Img → Img → ℚ)
    (hp : H) (s0 : σ) (ed : EpochData) (eds : List EpochData) :
    best_val_loss_init = 999 ∧
    (Sink.bestModel 0 ∈ (mainRun M f hp s0 (ed :: eds)).2
      ↔ valLossOf M f s0 ed < best_val_loss_init) := by
  refine ⟨rfl, ?_⟩
  have hrest : ∀ st : OrchState σ H,
      Sink.bestModel 0 ∉ (runEpochs M f st 1 eds).2 := by
    intro st hmem
    exact absurd (runEpochs_bestModel_ge M f eds st 1 0 hmem) (by omega)
  by_cases h : valLossOf M f s0 ed < best_val_loss_init
  · simp only [mainRun, runEpochs]
    rw [epochStep_writes]
    simp [h]
  · simp only [mainRun, runEpochs]
    rw [epochStep_writes]
    simp [h]
    intro hmem
    exact absurd hmem (hrest _)

/-- C6 counterexample: a pair of batches of differing sizes on which
`psnr_of_batch` returns a value instead of failing — a clean batch of one
image and a denoised batch of two images. -/
theorem claim_C6_cex :
    ([[0]] : Batch).length ≠ ([[0], [0]] : Batch).length ∧
    psnr_of_batch f0 [[0]] [[0], [0]] = Except.ok 0 := by
  refine ⟨by decide, ?_⟩
  simp [psnr_of_batch, psnr_loop, f0]

/-- C6 amended: `psnr_of_batch` returns a value exactly when the clean batch
is nonempty and no larger than the denoised batch (extra denoised images are
silently ignored); it fails with the numpy IndexError precisely when the
clean batch is strictly larger than the denoised batch (and with a
ZeroDivisionError when the clean batch is empty). -/
theorem claim_C6_amended (f : ℚ → Img → Img → ℚ) (clean denoised : Batch) :
    ((∃ q, psnr_of_batch f clean denoised = Except.ok q)
      ↔ (0 < clean.length ∧ clean.length ≤ denoised.length)) ∧
    (denoised.length < clean.length →
      psnr_of_batch f clean denoised = Except.error "IndexError") := by
  constructor
  · constructor
    · rintro ⟨q, hq⟩
      by_cases h0 : clean.length = 0
      · exfalso
        have hc : clean = [] := List.length_eq_zero.mp h0
        subst hc
        simp [psnr_of_batch, psnr_loop] at hq
      · by_cases hle : clean.length ≤ denoised.length
        · exact ⟨Nat.pos_of_ne_zero h0, hle⟩
        · exfalso
          rw [psnr_of_batch, psnr_loop_err f clean denoised (by omega) 0] at hq
          simp at hq
    · rintro ⟨h0, hle⟩
      refine ⟨_, psnr_of_batch_ok f clean denoised ?_ hle⟩
      intro hnil
      rw [hnil] at h0
      simp at h0
  · intro hlt
    rw [psnr_of_batch, psnr_loop_err f clean denoised hlt 0]

theorem claim_C6_amended_witness :
    psnr_of_batch f0 [[0], [0]] [[0]] = Except.error "IndexError" :=
  (claim_C6_amended f0 [[0], [0]] [[0]]).2 (by decide)

/-- C7: on the (nonempty) validation batches, the eval runner returns the
state unchanged together with the arithmetic means over all batches of the
per-batch loss and of the per-batch PSNR, where the per-batch PSNR
(`batchPsnrSpec`) is the arithmetic mean over the batch's images of the
opaque per-image PSNR applied at data range 1 to the clean image and to
`clamp(noisy - pred, 0, 1)`. -/
theorem claim_C7 (σ : Type) (M : ModelDyn σ) (f : ℚ → Img → Img → ℚ) (s : σ)
    (bs : List PairBatch) (hne : ∀ b ∈ bs, b ≠ ([] : PairBatch)) :
    evalEpoch M f s bs
      = Except.ok (s, meanQ (bs.map (batchLoss M s)),
          meanQ (bs.map (batchPsnrSpec f M s))) := by
  rw [evalEpoch_eq_total M f s bs hne, evalEpochTotal_eq]
  have hmap : bs.map (batchPsnrD f M s) = bs.map (batchPsnrSpec f M s) :=
    List.map_congr_left (fun b _ => batchPsnrD_eq_spec f M s b)
  rw [hmap]

theorem claim_C7_witness :
    evalEpoch M0 f0 () [[([0], [0])]] = Except.ok ((), 0, 0) := by
  have h := claim_C7 Unit M0 f0 () [[([0], [0])]] (by simp)
  rw [h]
  simp [meanQ, batchLoss, batchPsnrSpec, criterionSum, sseImg, predsOf, noisyOf,
    cleanOf, noiseOf, imgAdd, M0, denoisedOf, imgClamp01, imgSub, clamp01, f0]

/-- C8: the evaluation pass leaves the model parameters and optimizer state
(the abstract state it threads) exactly as they were when it started —
whenever the eval runner returns, the state component of its result is its
input state, for both the exception-aware runner and its total version. -/
theorem claim_C8 (σ : Type) (M : ModelDyn σ) (f : ℚ → Img → Img → ℚ) (s : σ)
    (bs : List PairBatch) (out : σ × ℚ × ℚ)
    (hok : evalEpoch M f s bs = Except.ok out) :
    out.1 = s ∧ (evalEpochTotal M f s bs).1 = s := by
  constructor
  · rcases hgo : evalGo M f s 0 0 0 bs with e | r
    · rw [evalEpoch, hgo] at hok
      cases hok
    · rw [evalEpoch, hgo] at hok
      injection hok with h2
      rw [← h2]
      exact evalGo_fst M f bs s 0 0 0 r hgo
  · rw [evalEpochTotal_eq]

theorem claim_C8_witness :
    (((), (0 : ℚ), (0 : ℚ)).1 = () ∧ (evalEpochTotal M0 f0 () [[([0], [0])]]).1 = ()) :=
  claim_C8 Unit M0 f0 () [[([0], [0])]] ((), 0, 0) evalEpoch_M0_eval

/-- C9: whenever a bestHistory snapshot is written at (0-based) epoch `e`
(that is, at 1-based epoch k = e+1), the snapshot's train-loss,
validation-loss and PSNR sequences each hold exactly e = k-1 entries: the
triggering epoch's own entries are appended only after the snapshot is
written, so the persisted best-history never contains them. -/
theorem claim_C9 (σ H : Type) (M : ModelDyn σ) (f : ℚ → Img → Img → ℚ)
    (hp : H) (s0 : σ) (eds : List EpochData) (e : ℕ) (h : History H)
    (hmem : Sink.bestHistory e h ∈ (mainRun M f hp s0 eds).2) :
    h.train.length = e ∧ h.val.length = e ∧ h.psnr.length = e := by
  have hrun : Sink.bestHistory e h
      ∈ (runEpochs M f ⟨s0, best_val_loss_init, ⟨hp, [], [], []⟩⟩ 0 eds).2 := by
    simp only [mainRun, List.mem_cons, List.mem_append] at hmem
    rcases hmem with h1 | h2 | h3
    · cases h1
    · exact h2
    · simp at h3
  exact runEpochs_bestHistory_len M f eds
    ⟨s0, best_val_loss_init, ⟨hp, [], [], []⟩⟩ 0 rfl rfl rfl e h hrun

theorem claim_C9_witness :
    ((⟨0, [], [], []⟩ : History ℕ).train.length = 0 ∧
     (⟨0, [], [], []⟩ : History ℕ).val.length = 0 ∧
     (⟨0, [], [], []⟩ : History ℕ).psnr.length = 0) :=
  claim_C9 Unit ℕ M0 f0 0 () [ed0] 0 ⟨0, [], [], []⟩
    (by rw [mainRun_M0_single_writes]; simp)

/-- C10: when the training-store path exists and the validation-store path
does not, the startup check aborts with the assertion error whose message
names the training-store path (the f-string of train.py line 76 interpolates
`args.train_set`), not the missing validation-store path. -/
theorem claim_C10 (pathExists : String → Bool) (t v : String)
    (ht : pathExists t = true) (hv : pathExists v = false) :
    checkDataFiles pathExists t v
      = Except.error ("Cannot find validation vectors file " ++ t) := by
  simp [checkDataFiles, ht, hv]

theorem claim_C10_witness :
    checkDataFiles (fun s => s == "train.h5") "train.h5" "val.h5"
      = Except.error "Cannot find validation vectors file train.h5" :=
  (claim_C10 (fun s => s == "train.h5") "train.h5" "val.h5"
    (by decide) (by decide)).trans (congrArg Except.error (by decide))

end DnCNN
